import Mathlib

/-!
Verification of the clinical-notes extraction pipeline
(`src/extractor.py`, `src/prompts.py`, `src/utils.py`).

The pipeline is embedded shallowly:

* Python/JSON values are modelled by the inductive `JVal`; a Python `dict`
  is an insertion-ordered association list (`json.loads` produces unique
  keys, and all dict reads below are first-match lookups).
* The external `json.loads` of the standard library is modelled as an
  abstract parameter `loads : String -> Option JVal`, where `none` stands
  for a raised `json.JSONDecodeError`.
* The external Fireworks chat-completion client is modelled as
  `client : Nat -> String -> Except String String`: given the index of the
  call and the rendered user prompt it either returns the response content
  (`.ok`) or raises (`.error`, covering network/auth/timeout errors and
  the empty-response validations of `extract_features`).
* Python exceptions inside the repository's own code are modelled with
  `Except String`; `time.sleep` calls are recorded (their durations for
  the backoff sleeps, a counter for the rate-limit sleeps) instead of
  performed.

String primitives (`strip`, `split`, `startswith`, slicing) are modelled
by executable functions on `List Char` so that every definition evaluates
by kernel reduction.
-/

/-- JSON / Python values as produced by `json.loads`. -/
inductive JVal where
  | jnull : JVal
  | jbool : Bool → JVal
  | jnum : Int → JVal
  | jstr : String → JVal
  | jarr : List JVal → JVal
  | jobj : List (String × JVal) → JVal

/-! ### Python string primitives -/

/-- `List`-level `startswith`: first argument is the pattern. -/
def startsWithL : List Char → List Char → Bool
  | [], _ => true
  | _ :: _, [] => false
  | p :: ps, c :: cs => p == c && startsWithL ps cs

/-- `List`-level `endswith`: first argument is the pattern. -/
def endsWithL (pat l : List Char) : Bool :=
  startsWithL pat.reverse l.reverse

/-- Python `str.strip()`: remove leading and trailing whitespace. -/
def pyStrip (s : String) : String :=
  ⟨((s.toList.dropWhile Char.isWhitespace).reverse.dropWhile Char.isWhitespace).reverse⟩

/-- Helper of `pySplit`: split on whitespace runs, dropping empty pieces
(the accumulator holds the current word, reversed). -/
def pySplitGo : List Char → List Char → List (List Char)
  | [], acc => if acc.isEmpty then [] else [acc.reverse]
  | c :: cs, acc =>
    if c.isWhitespace then
      (if acc.isEmpty then [] else [acc.reverse]) ++ pySplitGo cs []
    else pySplitGo cs (c :: acc)

/-- Python `str.split()` (no separator): split on whitespace runs. -/
def pySplit (s : String) : List String :=
  (pySplitGo s.toList []).map fun cs => ⟨cs⟩

/-- Python `sep.join(pieces)`. -/
def pyJoin (sep : String) : List String → String
  | [] => ""
  | [s] => s
  | s :: rest => s ++ sep ++ pyJoin sep rest

/-! ### Schema (`utils.py` lines 10-15, `extractor.py` lines 249-278) -/

/-- `utils.py` `REQUIRED_FIELDS` (same ten names as the extractor's
`expected_fields` set and `_get_empty_structure`). -/
def REQUIRED_FIELDS : List String :=
  ["Chief_Complaint", "History_Present_Illness", "Past_Medical_History",
   "Current_Medications", "Allergies", "Physical_Exam",
   "Review_of_Systems", "Labs_Imaging_Results",
   "Assessment_Impression", "Plan"]

/-- `ClinicalNotesExtractor._get_empty_structure`: the canonical empty
record, every schema field mapped to `""`. -/
def get_empty_structure : JVal :=
  .jobj (REQUIRED_FIELDS.map fun f => (f, .jstr ""))

/-- `ClinicalNotesExtractor._get_empty_structures(count)`. -/
def get_empty_structures (count : Nat) : List JVal :=
  List.replicate count get_empty_structure

/-! ### Prompt Builder (`prompts.py` `get_user_prompt`) -/

/-- The numbered-note lines of `get_user_prompt`: the list comprehension
`[f"**Note {i+1}:**\n{note.strip()}" for i, note in enumerate(notes_list)
if note.strip()]` — enumeration happens before the whitespace-only filter,
so each kept note is labelled with its original 1-based position. -/
def promptNoteLines (notes_list : List String) : List String :=
  (notes_list.enum.filter fun p => pyStrip p.2 ≠ "").map fun p =>
    "**Note " ++ toString (p.1 + 1) ++ ":**\n" ++ pyStrip p.2

/-- Fixed text of the user-prompt template before `{notes_text}`. -/
def userPromptHead : String :=
  "Extract structured medical information from the following clinical note(s).\n\n    "

/-- Fixed text of the user-prompt template after `{notes_text}`. -/
def userPromptTail : String :=
  "\n\n    **EXTRACTION REQUIREMENTS:**\n    - Analyze each note carefully and extract all available information\n    - Return a JSON object with a \"results\" array containing one object per note\n    - Maintain the order of notes as numbered above\n    - Follow the exact field structure and naming from the system prompt\n    - Use semicolons (;) to separate multiple items within the same field\n    - Use empty string \"\" for any field not present in the note\n    - Return ONLY the JSON output - no explanations, no markdown formatting, no code blocks\n\n    **Expected Output Format:**\n    \x7b\"results\": [\x7b...\x7d]\x7d\n\n    Begin extraction:"

/-- `prompts.get_user_prompt(notes_list)`. -/
def get_user_prompt (notes_list : List String) : String :=
  if notes_list.isEmpty then "No clinical notes provided."
  else
    userPromptHead ++ pyJoin "\n\n" (promptNoteLines notes_list) ++ userPromptTail

/-! ### Response Parser (`extractor.py` lines 136-257) -/

/-- `ClinicalNotesExtractor._clean_markdown`. -/
def clean_markdown (content : String) : String :=
  let cs := content.toList
  let c1 := if startsWithL "```json".toList cs then cs.drop 7
            else if startsWithL "```".toList cs then cs.drop 3
            else cs
  let c2 := if endsWithL "```".toList c1 then c1.take (c1.length - 3) else c1
  pyStrip ⟨c2⟩

/-- `ClinicalNotesExtractor._is_valid_structure`: at least half of the ten
expected fields (`10 // 2 = 5`) occur among the object's keys. -/
def is_valid_structure (fs : List (String × JVal)) : Bool :=
  (REQUIRED_FIELDS.filter fun f => fs.any fun p => p.1 == f).length ≥
    REQUIRED_FIELDS.length / 2

/-- The `for key, value in data.items(): if isinstance(value, list): return
value` scan: first list-typed value of the dict, in insertion order. -/
def firstListValue : List (String × JVal) → Option JVal
  | [] => none
  | (_, JVal.jarr xs) :: _ => some (.jarr xs)
  | _ :: rest => firstListValue rest

/-- `_parse_response` lines 156-181: dispatch on the value produced by a
successful `json.loads`.  A list is returned as is; a dict is probed for
the wrapper keys `results`, `features`, `data`, `notes`,
`extracted_features` in that order; otherwise a valid-looking structure is
wrapped, else the first list value is returned, else the dict is wrapped.
A value of any other type falls out of the `try` block and hits the final
`return []` (line 195). -/
def handleDecoded : JVal → JVal
  | .jarr xs => .jarr xs
  | .jobj fs =>
    match fs.lookup "results" with
    | some v => v
    | none =>
    match fs.lookup "features" with
    | some v => v
    | none =>
    match fs.lookup "data" with
    | some v => v
    | none =>
    match fs.lookup "notes" with
    | some v => v
    | none =>
    match fs.lookup "extracted_features" with
    | some v => v
    | none =>
      if is_valid_structure fs then .jarr [.jobj fs]
      else
        match firstListValue fs with
        | some v => v
        | none => .jarr [.jobj fs]
  | _ => .jarr []

/-- The span matched by `re.search(r'$$.*$$', content, re.DOTALL)`
(line 212).  Both `$` are zero-width end-of-string anchors (they are not
escaped brackets), so the leftmost match starts at the first position
where `$` can match — just before a final newline, or at the very end —
and the greedy `.*` runs to the end of the string.  The match therefore
always exists and its text is `"\n"` when the content ends with a newline
and `""` otherwise; it never contains a `[...]` span. -/
def arraySpan (content : String) : Option String :=
  some (if endsWithL ['\n'] content.toList then "\n" else "")

/-- The span matched by `re.search(r'\x7b.*\x7d', content, re.DOTALL)`
(line 220): leftmost match, greedy `.*` — from the first opening brace to
the last closing brace, provided the latter comes after the former. -/
def braceSpan (content : String) : Option String :=
  let cs := content.toList
  match cs.findIdx? (fun c => c == Char.ofNat 123),
        cs.reverse.findIdx? (fun c => c == Char.ofNat 125) with
  | some i, some k =>
    let j := cs.length - 1 - k
    if i < j then some ⟨(cs.drop i).take (j - i + 1)⟩ else none
  | _, _ => none

/-- `ClinicalNotesExtractor._extract_json_with_regex`.  The array branch
attempts `json.loads` on the (always whitespace-only, see `arraySpan`)
match of `r'$$.*$$'` and on success returns the decoded value unchanged;
on failure the object branch decodes the first-to-last brace span: a dict
yields its first list-typed value, else `[obj]` (the valid-structure check
of lines 229-231 and the fallthrough of line 232 return the same value);
a non-dict decode is returned raw; every failure ends in `return []`. -/
def extract_json_with_regex (loads : String → Option JVal) (content : String) : JVal :=
  let objBranch : JVal :=
    match braceSpan content with
    | some s =>
      match loads s with
      | some (.jobj fs) =>
        (match firstListValue fs with
         | some v => v
         | none =>
           if is_valid_structure fs then .jarr [.jobj fs] else .jarr [.jobj fs])
      | some v => v
      | none => .jarr []
    | none => .jarr []
  match arraySpan content with
  | some s =>
    match loads s with
    | some v => v
    | none => objBranch
  | none => objBranch

/-- `ClinicalNotesExtractor._parse_response`: strip, remove markdown
fences, `json.loads`; on success dispatch via `handleDecoded`, on a decode
error fall back to `extract_json_with_regex` on the cleaned text.  All
other exception paths end in `return []`, so the model is total. -/
def parse_response (loads : String → Option JVal) (content : String) : JVal :=
  let cleaned := clean_markdown (pyStrip content)
  match loads cleaned with
  | some data => handleDecoded data
  | none => extract_json_with_regex loads cleaned

/-! ### `utils.clean_extracted_data` (`utils.py` lines 272-304) -/

mutual

/-- Python `repr` of a JSON value (used by `str()` on lists and dicts). -/
def pyRepr : JVal → String
  | .jnull => "None"
  | .jbool b => if b then "True" else "False"
  | .jnum n => toString n
  | .jstr s => "\x27" ++ s ++ "\x27"
  | .jarr xs => "[" ++ pyJoin ", " (pyReprArr xs) ++ "]"
  | .jobj fs => "\x7b" ++ pyJoin ", " (pyReprObj fs) ++ "\x7d"

/-- `repr` of the elements of a list. -/
def pyReprArr : List JVal → List String
  | [] => []
  | v :: vs => pyRepr v :: pyReprArr vs

/-- `repr` of the entries of a dict. -/
def pyReprObj : List (String × JVal) → List String
  | [] => []
  | (k, v) :: fs => ("\x27" ++ k ++ "\x27: " ++ pyRepr v) :: pyReprObj fs

end

/-- Python `str()` of a JSON value. -/
def pyStr : JVal → String
  | .jnull => "None"
  | .jbool b => if b then "True" else "False"
  | .jnum n => toString n
  | .jstr s => s
  | .jarr xs => pyRepr (.jarr xs)
  | .jobj fs => pyRepr (.jobj fs)

/-- The per-field coercion of `clean_extracted_data`: `None` becomes `""`,
strings get whitespace-normalised by `" ".join(value.split()).strip()`,
anything else becomes `str(value).strip()`. -/
def cleanFieldValue : JVal → String
  | .jnull => ""
  | .jstr s => pyStrip (pyJoin " " (pySplit s))
  | v => pyStrip (pyStr v)

/-- `utils.clean_extracted_data(data)`: rebuild every record with exactly
the `REQUIRED_FIELDS` keys in schema order, reading each field with
`item.get(field, "")` (records are dicts, hence association lists). -/
def clean_extracted_data (data : List (List (String × JVal))) :
    List (List (String × JVal)) :=
  data.map fun item =>
    REQUIRED_FIELDS.map fun field =>
      (field, JVal.jstr (cleanFieldValue ((item.lookup field).getD (.jstr ""))))

/-! ### Python dynamic semantics helpers for `extract_features` -/

/-- Python truthiness of a JSON value (`if not structured_data`). -/
def pyTruthy : JVal → Bool
  | .jnull => false
  | .jbool b => b
  | .jnum n => n != 0
  | .jstr s => !(s == "")
  | .jarr xs => !xs.isEmpty
  | .jobj fs => !fs.isEmpty

/-- Python `len()`: defined for lists, strings and dicts, a `TypeError`
(`none`) otherwise. -/
def pyLen : JVal → Option Nat
  | .jarr xs => some xs.length
  | .jstr s => some s.length
  | .jobj fs => some fs.length
  | _ => none

/-- Python `list.extend(v)` semantics: the elements appended when `v` is
iterated — a list yields its elements, a string its one-character strings,
a dict its keys; other values raise `TypeError`. -/
def pyExtend : JVal → Except String (List JVal)
  | .jarr xs => .ok xs
  | .jstr s => .ok (s.toList.map fun c => .jstr ⟨[c]⟩)
  | .jobj fs => .ok (fs.map fun p => .jstr p.1)
  | _ => .error "TypeError: object is not iterable"

/-! ### Batch Extractor (`extractor.py` `extract_features`, lines 48-134) -/

/-- The length-mismatch correction of `extract_features` (lines 100-113):
when the parsed value's `len()` differs from the note count, too few
records are padded with `structured_data.append(self._get_empty_structure())`
and too many are truncated with `structured_data[:len(notes)]`.  Only a
list supports `.append`; slicing also works on a string; a dict supports
neither (`AttributeError` / unhashable-slice `TypeError`), and values
without `len()` never reach this code. -/
def handleLengthMismatch (v : JVal) (n : Nat) : Except String JVal :=
  match v with
  | .jarr xs =>
    if xs.length < n then
      .ok (.jarr (xs ++ List.replicate (n - xs.length) get_empty_structure))
    else if n < xs.length then .ok (.jarr (xs.take n))
    else .ok (.jarr xs)
  | .jstr s =>
    if s.length < n then .error "AttributeError: str object has no attribute append"
    else if n < s.length then .ok (.jstr ⟨s.toList.take n⟩)
    else .ok (.jstr s)
  | .jobj fs =>
    if fs.length < n then .error "AttributeError: dict object has no attribute append"
    else if n < fs.length then .error "TypeError: unhashable type: slice"
    else .ok (.jobj fs)
  | _ => .error "TypeError: object has no len()"

/-- One pass through the `try` block of `extract_features` (lines 59-115):
validate the notes list, build the user prompt, call the completion
client, validate the content, parse, check truthiness, take `len()`, and
correct a length mismatch.  Returns the outcome together with the number
of client calls consumed (0 when validation fails before the call, else 1). -/
def tryBody (loads : String → Option JVal) (client : Nat → String → Except String String)
    (callIdx : Nat) (notes : List String) : Except String JVal × Nat :=
  if notes.isEmpty then (.error "Notes list cannot be empty", 0)
  else
    match client callIdx (get_user_prompt notes) with
    | .error e => (.error e, 1)
    | .ok content =>
      if pyStrip content = "" then (.error "Empty content in API response", 1)
      else
        if pyTruthy (parse_response loads content) = false then
          (.error "Failed to parse response into structured data", 1)
        else
          match pyLen (parse_response loads content) with
          | none => (.error "TypeError: object has no len()", 1)
          | some m =>
            if m = notes.length then (.ok (parse_response loads content), 1)
            else (handleLengthMismatch (parse_response loads content) notes.length, 1)

/-- Result of one `extract_features` call: the returned Python value, the
number of completion-client calls made, and the backoff sleeps (seconds,
in order) performed by `time.sleep(2 ** retry_count)`. -/
structure FRes where
  result : JVal
  calls : Nat
  sleeps : List Nat

/-- The retry recursion of `extract_features`, driven by the number of
retries still allowed (`remaining = max_retries - 1 - retry_count`; the
Python guard `retry_count < self.max_retries - 1` holds exactly when
`remaining > 0`).  On an exception with no retries left, the fallback
`self._get_empty_structures(len(notes))` is returned. -/
def efGo (loads : String → Option JVal) (client : Nat → String → Except String String)
    (notes : List String) : Nat → Nat → Nat → FRes
  | 0, _, callIdx =>
    (match tryBody loads client callIdx notes with
     | (.ok v, c) => ⟨v, c, []⟩
     | (.error _, c) => ⟨.jarr (get_empty_structures notes.length), c, []⟩)
  | remaining + 1, retry_count, callIdx =>
    (match tryBody loads client callIdx notes with
     | (.ok v, c) => ⟨v, c, []⟩
     | (.error _, c) =>
       let rest := efGo loads client notes remaining (retry_count + 1) (callIdx + c)
       ⟨rest.result, c + rest.calls, 2 ^ retry_count :: rest.sleeps⟩)

/-- `ClinicalNotesExtractor.extract_features(notes, retry_count)` under a
given `max_retries`, with `callIdx` numbering the completion calls made
so far. -/
def extract_features (max_retries : Nat) (loads : String → Option JVal)
    (client : Nat → String → Except String String) (notes : List String)
    (retry_count callIdx : Nat) : FRes :=
  efGo loads client notes (max_retries - 1 - retry_count) retry_count callIdx

/-! ### Batch Orchestrator (`extractor.py` `extract_batch`, lines 292-369) -/

/-- The count-mismatch fix of `extract_batch` (lines 339-342):
`results.extend(self._get_empty_structures(...))` when too few (only a
list has `.extend`; a string or dict raises `AttributeError`), and
`results[:len(batch)]` when too many (slicing works on lists and strings,
a dict slice raises `TypeError`). -/
def batchFix (v : JVal) (n : Nat) : Except String JVal :=
  match v with
  | .jarr xs =>
    if xs.length < n then
      .ok (.jarr (xs ++ List.replicate (n - xs.length) get_empty_structure))
    else .ok (.jarr (xs.take n))
  | .jstr s =>
    if s.length < n then .error "AttributeError: str object has no attribute extend"
    else .ok (.jstr ⟨s.toList.take n⟩)
  | .jobj fs =>
    if fs.length < n then .error "AttributeError: dict object has no attribute extend"
    else .error "TypeError: unhashable type: slice"
  | _ => .error "TypeError: object has no len()"

/-- The per-batch result handling of `extract_batch` (lines 331-346): an
empty/falsy result is replaced by empty structures and the batch marked
failed; a count mismatch is fixed by `batchFix` and the batch marked
failed; then `all_results.extend(results)` appends the elements.  Returns
the appended elements and the failed flag, or the raised exception. -/
def batchStep (v : JVal) (n : Nat) : Except String (List JVal × Bool) :=
  if pyTruthy v = false then .ok (get_empty_structures n, true)
  else
    match pyLen v with
    | none => .error "TypeError: object has no len()"
    | some m =>
      if m = 0 then .ok (get_empty_structures n, true)
      else if m ≠ n then
        match batchFix v n with
        | .ok v2 =>
          (match pyExtend v2 with
           | .ok es => .ok (es, true)
           | .error e => .error e)
        | .error e => .error e
      else
        match pyExtend v with
        | .ok es => .ok (es, false)
        | .error e => .error e

/-- Result of one `extract_batch` call: the accumulated `all_results`, the
total number of completion-client calls, the number of inter-batch
rate-limit sleeps performed, the note slices processed as batches (in
order), and the `failed_batches` list of 1-based batch numbers. -/
structure BRes where
  results : List JVal
  calls : Nat
  rateSleeps : Nat
  slices : List (List String)
  failed : List Nat

/-- The batch loop of `extract_batch` (`for i in range(0, len(notes),
batch_size)`): the stride is `bp + 1`, so it is at least 1 as in any call
that does not raise `ValueError` in `range`.  `fuel` bounds the recursion
and is instantiated with `len(notes)`, which the loop never exceeds.  Each
iteration extracts the next `bp + 1` notes, runs `extract_features` with
`retry_count = 0`, handles the outcome (an exception appends
`self._get_empty_structures(len(batch))` and marks the batch failed), and
sleeps the rate-limit delay when further notes remain — the sleep sits at
the end of the `try` block, so an iteration that raised skips it. -/
def blGo (max_retries : Nat) (loads : String → Option JVal)
    (client : Nat → String → Except String String) (bp : Nat) :
    Nat → List String → Nat → Nat → BRes
  | _, [], _, _ => ⟨[], 0, 0, [], []⟩
  | 0, _ :: _, _, _ => ⟨[], 0, 0, [], []⟩
  | fuel + 1, note :: rest0, batch_number, callIdx =>
    let notes := note :: rest0
    let batch := notes.take (bp + 1)
    let rest := notes.drop (bp + 1)
    let f := extract_features max_retries loads client batch 0 callIdx
    let step := batchStep f.result batch.length
    let appended := match step with
      | .ok (es, _) => es
      | .error _ => get_empty_structures batch.length
    let failedHere : Bool := match step with
      | .ok (_, b) => b
      | .error _ => true
    let sleepHere :=
      match step with
      | .ok _ => if rest.isEmpty then 0 else 1
      | .error _ => 0
    let r := blGo max_retries loads client bp fuel rest (batch_number + 1) (callIdx + f.calls)
    ⟨appended ++ r.results, f.calls + r.calls, sleepHere + r.rateSleeps,
     batch :: r.slices, (if failedHere then [batch_number] else []) ++ r.failed⟩

/-- `ClinicalNotesExtractor.extract_batch(notes, batch_size)`: with
`batch_size = 0` the `range` call raises `ValueError`; otherwise the batch
loop runs with batch numbering starting at 1. -/
def extract_batch (max_retries : Nat) (loads : String → Option JVal)
    (client : Nat → String → Except String String) (notes : List String)
    (batch_size : Nat) : Except String BRes :=
  if batch_size = 0 then .error "ValueError: range() arg 3 must not be zero"
  else .ok (blGo max_retries loads client (batch_size - 1) notes.length notes 1 0)

/-! ### Concrete collaborators for witnesses

A finite model of `json.loads`, agreeing with real JSON decoding on its
table (every listed string is valid JSON text for the listed value) and
reporting a decode error elsewhere, and two completion clients. -/

/-- Finite, JSON-faithful model of `json.loads` used in witnesses. -/
def loadsFix : String → Option JVal := fun s =>
  if s = "[1, 2, 3]" then some (.jarr [.jnum 1, .jnum 2, .jnum 3])
  else if s = "\x7b\"results\": [7]\x7d" then some (.jobj [("results", .jarr [.jnum 7])])
  else if s = "[7]" then some (.jarr [.jnum 7])
  else if s = "[\x7b\"foo\": \"bar\"\x7d]" then some (.jarr [.jobj [("foo", .jstr "bar")]])
  else if s = "[\x7b\x7d]" then some (.jarr [.jobj []])
  else none

/-- A completion client whose every call raises. -/
def failClient : Nat → String → Except String String :=
  fun _ _ => .error "ConnectionError: completion call failed"

/-- A completion client that always returns the same content. -/
def okClient (content : String) : Nat → String → Except String String :=
  fun _ _ => .ok content

/-- Whether a Python value is a list — the record-sequence type
`_parse_response` is annotated to return (`List[Dict]`). -/
def isList : JVal → Bool
  | .jarr _ => true
  | _ => false

/-- A further finite, JSON-faithful model of `json.loads`: it decodes the
object `{"results": 5}`, whose wrapper value is not a sequence. -/
def loadsWrapNum : String → Option JVal := fun s =>
  if s = "\x7b\"results\": 5\x7d" then some (.jobj [("results", .jnum 5)])
  else none

/-! ## Claims about the Response Parser -/

/-- The span matched by the array regex is always whitespace-only. -/
theorem arraySpan_trim (content : String) :
    arraySpan content = some "" ∨ arraySpan content = some "\n" := by
  unfold arraySpan
  by_cases h : endsWithL ['\n'] content.data = true
  · right; simp [h]
  · left; simp [h]

/-- C3: the claim reads "the parser searches for the first `[...]` span and
attempts to decode it as a list", and the source's own comment says "Try to
extract JSON array" — but the pattern `r'$$.*$$'` consists of zero-width
end anchors, not escaped brackets, so the matched span never contains the
array.  At the failing input `"garbage [1, 2, 3]"` the text contains the
valid JSON array `"[1, 2, 3]"` (which `loads` does decode, third
conjunct), the array regex matches only the empty span at the end of the
text (second conjunct), and the parser returns the empty list instead of
recovering the array (first conjunct). -/
theorem regex_fallback_never_recovers_array :
    parse_response loadsFix "garbage [1, 2, 3]" = .jarr []
    ∧ arraySpan "garbage [1, 2, 3]" = some ""
    ∧ loadsFix "[1, 2, 3]" = some (.jarr [.jnum 1, .jnum 2, .jnum 3]) :=
  ⟨rfl, rfl, rfl⟩

/-- When every `loads` attempt of the regex fallback fails, it returns the
empty list. -/
theorem extract_json_with_regex_empty (loads : String → Option JVal) (c : String)
    (h0 : loads "" = none) (h1 : loads "\n" = none)
    (h3 : ∀ s, braceSpan c = some s → loads s = none) :
    extract_json_with_regex loads c = .jarr [] := by
  unfold extract_json_with_regex
  rcases hbs : braceSpan c with _ | s
  · rcases arraySpan_trim c with ha | ha <;> simp [ha, h0, h1, hbs]
  · have hl := h3 s hbs
    rcases arraySpan_trim c with ha | ha <;> simp [ha, h0, h1, hbs, hl]

/-- C4 (amended): `_parse_response` never raises (every Python raise-point
is caught by the `except` clauses, so the model is total), and every
FAILURE path degrades to the empty sequence: whenever strict decoding of
the cleaned content fails, the whitespace-only spans fed to `loads` by the
array regex fail, and the brace span (if any) fails to decode, the parser
returns `[]`.  The original claim's stronger promise — that every input
yields a sequence — is false: a successful decode of a wrapper object
returns the wrapper key's value unchecked, which need not be a sequence
(see `parse_response_wrapper_value_unchecked`). -/
theorem parse_response_degrades_to_empty (loads : String → Option JVal)
    (content : String)
    (h0 : loads "" = none) (h1 : loads "\n" = none)
    (h2 : loads (clean_markdown (pyStrip content)) = none)
    (h3 : ∀ s, braceSpan (clean_markdown (pyStrip content)) = some s → loads s = none) :
    parse_response loads content = .jarr [] := by
  simp only [parse_response, h2]
  exact extract_json_with_regex_empty loads _ h0 h1 h3

/-- Witness for C4 (amended) at the concrete garbage input
`"total garbage !!"`. -/
theorem parse_response_degrades_to_empty_witness :
    parse_response loadsFix "total garbage !!" = .jarr [] :=
  parse_response_degrades_to_empty loadsFix "total garbage !!" rfl rfl rfl
    (fun s hs => by
      rw [show braceSpan (clean_markdown (pyStrip "total garbage !!")) = none from rfl] at hs
      exact Option.noConfusion hs)

/-- C4 counterexample: the parser does not always return a sequence — the
wrapper-key branch returns the decoded object's `results` value unchecked,
so for the input `{"results": 5}` (under a `loads` that decodes exactly
that valid JSON text) `_parse_response` returns the integer `5`, which is
not a list. -/
theorem parse_response_wrapper_value_unchecked :
    parse_response loadsWrapNum "\x7b\"results\": 5\x7d" = .jnum 5
    ∧ isList (parse_response loadsWrapNum "\x7b\"results\": 5\x7d") = false :=
  ⟨rfl, rfl⟩

/-- C8: parsing a wrapped `{"results": L}` response yields the same
sequence as parsing the bare list `L` (first conjunct), and the wrapper
keys `results`, `features`, `data`, `notes`, `extracted_features` are
probed in that fixed priority order, the first present key's value being
returned regardless of dict insertion order (remaining conjuncts). -/
theorem parse_wrapper_equiv_and_priority (loads : String → Option JVal)
    (c1 c2 : String) (L : List JVal) (fs : List (String × JVal)) (v : JVal)
    (h1 : loads (clean_markdown (pyStrip c1)) = some (.jobj [("results", .jarr L)]))
    (h2 : loads (clean_markdown (pyStrip c2)) = some (.jarr L)) :
    parse_response loads c1 = parse_response loads c2
    ∧ (fs.lookup "results" = some v → handleDecoded (.jobj fs) = v)
    ∧ (fs.lookup "results" = none → fs.lookup "features" = some v →
        handleDecoded (.jobj fs) = v)
    ∧ (fs.lookup "results" = none → fs.lookup "features" = none →
        fs.lookup "data" = some v → handleDecoded (.jobj fs) = v)
    ∧ (fs.lookup "results" = none → fs.lookup "features" = none →
        fs.lookup "data" = none → fs.lookup "notes" = some v →
        handleDecoded (.jobj fs) = v)
    ∧ (fs.lookup "results" = none → fs.lookup "features" = none →
        fs.lookup "data" = none → fs.lookup "notes" = none →
        fs.lookup "extracted_features" = some v → handleDecoded (.jobj fs) = v) := by
  refine ⟨?_, ?_, ?_, ?_, ?_, ?_⟩
  · simp only [parse_response, h1, h2]
    rfl
  · intro ha; simp [handleDecoded, ha]
  · intro ha hb; simp [handleDecoded, ha, hb]
  · intro ha hb hc; simp [handleDecoded, ha, hb, hc]
  · intro ha hb hc hd; simp [handleDecoded, ha, hb, hc, hd]
  · intro ha hb hc hd he; simp [handleDecoded, ha, hb, hc, hd, he]

/-- Witness for C8: `{"results": [7]}` and `[7]` parse alike under the
concrete `loadsFix`, and on a dict carrying both `data` (inserted first)
and `features`, the `features` value wins by priority. -/
theorem parse_wrapper_equiv_and_priority_witness :
    parse_response loadsFix "\x7b\"results\": [7]\x7d" = parse_response loadsFix "[7]"
    ∧ handleDecoded (.jobj [("data", .jstr "d"), ("features", .jstr "f")]) = .jstr "f" :=
  have h := parse_wrapper_equiv_and_priority loadsFix "\x7b\"results\": [7]\x7d" "[7]"
    [.jnum 7] [("data", .jstr "d"), ("features", .jstr "f")] (.jstr "f") rfl rfl
  ⟨h.1, h.2.2.1 rfl rfl⟩

/-! ## Claims about the Prompt Builder -/

/-- Filtering an enumerated list keeps as many entries as filtering the
plain list: the numbering does not affect which notes are kept. -/
theorem enumFrom_filter_length (q : String → Bool) :
    ∀ (l : List String) (n : Nat),
      ((List.enumFrom n l).filter fun p => q p.2).length = (l.filter q).length := by
  intro l
  induction l with
  | nil => intro n; rfl
  | cons a t ih =>
    intro n
    by_cases hq : q a = true
    · simp [List.enumFrom, List.filter_cons, hq, ih]
    · simp [List.enumFrom, List.filter_cons, hq, ih]

/-- C7 (amended): `get_user_prompt` drops whitespace-only notes from the
rendered prompt (first conjunct: exactly the non-blank notes survive), but
because the comprehension enumerates before filtering, each kept note is
labelled `Note k` with `k` its ORIGINAL 1-based position in the input list
(second conjunct) — the numbering is not consecutive when a blank note is
skipped. -/
theorem prompt_drops_blanks_keeps_original_numbering (notes : List String) :
    (promptNoteLines notes).length = (notes.filter fun s => pyStrip s ≠ "").length
    ∧ ∀ i (h : i < notes.length), pyStrip notes[i] ≠ "" →
        ("**Note " ++ toString (i + 1) ++ ":**\n" ++ pyStrip notes[i]) ∈
          promptNoteLines notes := by
  constructor
  · unfold promptNoteLines
    rw [List.length_map, List.enum]
    exact enumFrom_filter_length (fun s => decide (pyStrip s ≠ "")) notes 0
  · intro i h hq
    unfold promptNoteLines
    have hlen : i < notes.enum.length := by simpa [List.enum_length] using h
    have hget : notes.enum[i] = (i, notes[i]) := by
      simp [List.enum, List.getElem_enumFrom]
    have hmem : (i, notes[i]) ∈ notes.enum := by
      rw [← hget]; exact List.getElem_mem hlen
    have hf : (i, notes[i]) ∈ notes.enum.filter fun p => pyStrip p.2 ≠ "" :=
      List.mem_filter.mpr ⟨hmem, by simpa using hq⟩
    exact List.mem_map_of_mem _ hf

/-- Witness for C7 (amended) on `["a", " ", "b"]`: two notes survive and
the kept note `"b"` is labelled with its original position 3. -/
theorem prompt_drops_blanks_keeps_original_numbering_witness :
    (promptNoteLines ["a", " ", "b"]).length = 2
    ∧ "**Note 3:**\nb" ∈ promptNoteLines ["a", " ", "b"] :=
  have h := prompt_drops_blanks_keeps_original_numbering ["a", " ", "b"]
  ⟨h.1.trans rfl, h.2 2 (by decide) (by decide)⟩

/-- C7 counterexample: in `["a", " ", "b"]` the blank is dropped but the
surviving notes are labelled `Note 1` and `Note 3`, not the consecutive
`Note 1`, `Note 2` the claim asserts. -/
theorem prompt_numbering_not_consecutive :
    promptNoteLines ["a", " ", "b"] = ["**Note 1:**\na", "**Note 3:**\nb"]
    ∧ "**Note 2:**\nb" ∉ promptNoteLines ["a", " ", "b"] :=
  ⟨rfl, by decide⟩

/-! ## Claims about record schema (C2) -/

/-- C2 (amended): every record produced by `utils.clean_extracted_data`
carries exactly the schema's field names, in schema order — missing keys
are filled with `""` and extra keys are dropped.  The extraction pipeline
itself, however, never calls this function (see
`pipeline_record_keys_not_schema`). -/
theorem clean_extracted_data_keys (data : List (List (String × JVal))) :
    ∀ item ∈ clean_extracted_data data, item.map Prod.fst = REQUIRED_FIELDS := by
  intro item hm
  unfold clean_extracted_data at hm
  obtain ⟨rec, -, rfl⟩ := List.mem_map.mp hm
  rw [List.map_map]
  rfl

/-- Witness for C2 (amended): cleaning the single record `{"foo": "x"}`
yields a record whose keys are exactly the schema fields. -/
theorem clean_extracted_data_keys_witness :
    (REQUIRED_FIELDS.map fun f => (f, JVal.jstr "")).map Prod.fst = REQUIRED_FIELDS :=
  clean_extracted_data_keys [[("foo", JVal.jstr "x")]]
    (REQUIRED_FIELDS.map fun f => (f, JVal.jstr "")) (List.Mem.head _)

/-- C2 counterexample: the pipeline (`extract_batch`) returns parsed
records as-is — with a one-note input whose completion parses to
`[{"foo": "bar"}]`, the returned record's key set is `["foo"]`, not the
schema fields; no key coercion happens on the pipeline path. -/
theorem pipeline_record_keys_not_schema :
    extract_batch 3 loadsFix (okClient "[\x7b\"foo\": \"bar\"\x7d]") ["note one"] 1 =
      .ok ⟨[.jobj [("foo", .jstr "bar")]], 1, 0, [["note one"]], []⟩
    ∧ ["foo"] ≠ REQUIRED_FIELDS :=
  ⟨rfl, by decide⟩

/-! ## Claims about the Record Normalizer (C6) -/

/-- C6: the length-mismatch normalizer of `extract_features` pads a short
parse with canonical empty records (first conjunct, preserving the parsed
prefix), truncates a long parse to the first `N` (second conjunct), and in
every case returns a list of length exactly `N` that agrees with the parse
on their common prefix (third conjunct). -/
theorem normalize_pad_truncate (xs : List JVal) (N : Nat) :
    (xs.length < N → handleLengthMismatch (.jarr xs) N =
        .ok (.jarr (xs ++ List.replicate (N - xs.length) get_empty_structure)))
    ∧ (N < xs.length → handleLengthMismatch (.jarr xs) N = .ok (.jarr (xs.take N)))
    ∧ ∃ ys, handleLengthMismatch (.jarr xs) N = .ok (.jarr ys) ∧ ys.length = N
        ∧ ys.take (min xs.length N) = xs.take (min xs.length N) := by
  refine ⟨fun hlt => by simp [handleLengthMismatch, hlt], ?_, ?_⟩
  · intro hgt
    have : ¬ xs.length < N := by omega
    simp [handleLengthMismatch, this, hgt]
  · by_cases hlt : xs.length < N
    · refine ⟨xs ++ List.replicate (N - xs.length) get_empty_structure,
        by simp [handleLengthMismatch, hlt], by simp; omega, ?_⟩
      have hmin : min xs.length N = xs.length := by omega
      rw [hmin, List.take_left, List.take_length]
    · by_cases hgt : N < xs.length
      · refine ⟨xs.take N, by simp [handleLengthMismatch, hlt, hgt], by simp; omega, ?_⟩
        have hmin : min xs.length N = N := by omega
        rw [hmin, List.take_take, Nat.min_self]
      · have heq : xs.length = N := by omega
        refine ⟨xs, by simp [handleLengthMismatch, hlt, hgt], heq, rfl⟩

/-- Witness for C6: the spec's two examples — 3 records for a 5-note batch
yield the 3 records plus 2 canonical empties, 7 records for a 5-note batch
yield the first 5. -/
theorem normalize_pad_truncate_witness :
    handleLengthMismatch (.jarr (List.replicate 3 (.jobj [("Plan", .jstr "p")]))) 5 =
      .ok (.jarr (List.replicate 3 (.jobj [("Plan", .jstr "p")]) ++
        List.replicate 2 get_empty_structure))
    ∧ handleLengthMismatch (.jarr (List.replicate 7 (.jobj [("Plan", .jstr "p")]))) 5 =
      .ok (.jarr (List.replicate 5 (.jobj [("Plan", .jstr "p")]))) :=
  ⟨(normalize_pad_truncate (List.replicate 3 (.jobj [("Plan", .jstr "p")])) 5).1
      (by decide),
   ((normalize_pad_truncate (List.replicate 7 (.jobj [("Plan", .jstr "p")])) 5).2.1
      (by decide)).trans rfl⟩

/-! ## Length bookkeeping of `extract_features` -/

theorem string_length_data (s : String) : s.length = s.data.length := rfl

theorem string_toList_data (s : String) : s.toList = s.data := rfl

theorem string_mk_length (cs : List Char) : String.length ⟨cs⟩ = cs.length := rfl

/-- Iterating a value with `len() = m` appends exactly `m` elements. -/
theorem pyExtend_len {v : JVal} {m : Nat} {es : List JVal}
    (hl : pyLen v = some m) (he : pyExtend v = .ok es) : es.length = m := by
  cases v with
  | jarr xs =>
    simp [pyLen] at hl
    simp [pyExtend] at he
    rw [← he, ← hl]
  | jstr s =>
    simp [pyLen] at hl
    simp [pyExtend] at he
    rw [← he, ← hl, List.length_map, string_length_data]
  | jobj fs =>
    simp [pyLen] at hl
    simp [pyExtend] at he
    rw [← he, ← hl]
    simp
  | jnull => simp [pyLen] at hl
  | jbool b => simp [pyLen] at hl
  | jnum i => simp [pyLen] at hl

/-- Whenever the in-`extract_features` mismatch correction returns without
raising, the result has `len()` exactly the note count. -/
theorem handleLengthMismatch_ok_len {v : JVal} {n : Nat} {v2 : JVal}
    (h : handleLengthMismatch v n = .ok v2) : pyLen v2 = some n := by
  cases v with
  | jarr xs =>
    by_cases h1 : xs.length < n
    · simp [handleLengthMismatch, h1] at h
      rw [← h]; simp [pyLen]; omega
    · by_cases h2 : n < xs.length
      · simp [handleLengthMismatch, h1, h2] at h
        rw [← h]; simp [pyLen]; omega
      · simp [handleLengthMismatch, h1, h2] at h
        rw [← h]; simp [pyLen]; omega
  | jstr s =>
    by_cases h1 : s.length < n
    · simp [handleLengthMismatch, h1] at h
    · by_cases h2 : n < s.length
      · simp [handleLengthMismatch, h1, h2] at h
        rw [← h]
        simp only [pyLen, string_mk_length, Option.some.injEq, List.length_take]
        rw [string_length_data] at h2
        omega
      · simp [handleLengthMismatch, h1, h2] at h
        rw [← h]
        simp only [pyLen, Option.some.injEq, string_length_data]
        rw [string_length_data] at h1 h2
        omega
  | jobj fs =>
    by_cases h1 : fs.length < n
    · simp [handleLengthMismatch, h1] at h
    · by_cases h2 : n < fs.length
      · simp [handleLengthMismatch, h1, h2] at h
      · simp [handleLengthMismatch, h1, h2] at h
        rw [← h]; simp [pyLen]; omega
  | jnull => simp [handleLengthMismatch] at h
  | jbool b => simp [handleLengthMismatch] at h
  | jnum i => simp [handleLengthMismatch] at h

/-- Same for the mismatch correction inside `extract_batch`. -/
theorem batchFix_ok_len {v : JVal} {n : Nat} {v2 : JVal}
    (h : batchFix v n = .ok v2) : pyLen v2 = some n := by
  cases v with
  | jarr xs =>
    by_cases h1 : xs.length < n
    · simp [batchFix, h1] at h
      rw [← h]; simp [pyLen]; omega
    · simp [batchFix, h1] at h
      rw [← h]; simp [pyLen]; omega
  | jstr s =>
    by_cases h1 : s.length < n
    · simp [batchFix, h1] at h
    · simp [batchFix, h1] at h
      rw [← h]
      simp only [pyLen, string_mk_length, Option.some.injEq, List.length_take]
      rw [string_length_data] at h1
      omega
  | jobj fs =>
    by_cases h1 : fs.length < n
    · simp [batchFix, h1] at h
    · simp [batchFix, h1] at h
  | jnull => simp [batchFix] at h
  | jbool b => simp [batchFix] at h
  | jnum i => simp [batchFix] at h

/-- Every non-raising pass through the `try` block of `extract_features`
produces a value whose `len()` equals the note count (either the parse
already matched, or the mismatch correction fixed it). -/
theorem tryBody_ok_len {loads : String → Option JVal}
    {client : Nat → String → Except String String} {callIdx : Nat}
    {notes : List String} {v : JVal} {c : Nat}
    (h : tryBody loads client callIdx notes = (.ok v, c)) :
    pyLen v = some notes.length := by
  unfold tryBody at h
  split at h
  · simp at h
  · split at h
    · simp at h
    · split at h
      · simp at h
      · split at h
        · simp at h
        · split at h
          · simp at h
          · rename_i m hm
            split at h
            · rename_i heq
              simp at h
              obtain ⟨hv, -⟩ := h
              rw [← hv, hm, heq]
            · simp at h
              obtain ⟨hv, -⟩ := h
              exact handleLengthMismatch_ok_len hv

/-- The retry loop of `extract_features` always returns a value whose
`len()` equals the note count: a successful attempt by `tryBody_ok_len`,
the exhaustion fallback by construction. -/
theorem efGo_result_len (loads : String → Option JVal)
    (client : Nat → String → Except String String) (notes : List String) :
    ∀ r rc k : Nat, pyLen (efGo loads client notes r rc k).result = some notes.length := by
  intro r
  induction r with
  | zero =>
    intro rc k
    rcases htb : tryBody loads client k notes with ⟨res, c⟩
    cases res with
    | ok v =>
      simp [efGo, htb]
      exact tryBody_ok_len htb
    | error e =>
      simp [efGo, htb, pyLen, get_empty_structures]
  | succ r ih =>
    intro rc k
    rcases htb : tryBody loads client k notes with ⟨res, c⟩
    cases res with
    | ok v =>
      simp [efGo, htb]
      exact tryBody_ok_len htb
    | error e =>
      simp [efGo, htb]
      exact ih (rc + 1) (k + c)

/-- `extract_features` always returns one record slot per input note. -/
theorem extract_features_result_len (max_retries : Nat) (loads : String → Option JVal)
    (client : Nat → String → Except String String) (notes : List String)
    (rc k : Nat) :
    pyLen (extract_features max_retries loads client notes rc k).result =
      some notes.length :=
  efGo_result_len loads client notes _ rc k

/-- Every non-raising path of the per-batch handling appends exactly `n`
elements. -/
theorem batchStep_ok_len {v : JVal} {n : Nat} {es : List JVal} {b : Bool}
    (h : batchStep v n = .ok (es, b)) : es.length = n := by
  unfold batchStep at h
  split at h
  · simp at h
    obtain ⟨he, -⟩ := h
    rw [← he]; simp [get_empty_structures]
  · split at h
    · simp at h
    · rename_i m hm
      split at h
      · simp at h
        obtain ⟨he, -⟩ := h
        rw [← he]; simp [get_empty_structures]
      · split at h
        · split at h
          · rename_i v2 hfix
            split at h
            · rename_i es2 hext
              simp at h
              obtain ⟨he, -⟩ := h
              rw [← he]
              exact pyExtend_len (batchFix_ok_len hfix) hext
            · simp at h
          · simp at h
        · rename_i hne
          split at h
          · rename_i es2 hext
            simp at h
            obtain ⟨he, -⟩ := h
            rw [← he]
            have hmn : m = n := by omega
            rw [pyExtend_len hm hext, hmn]
          · simp at h

/-- On a value of positive `len() = n` — which is what `extract_features`
hands the orchestrator — the per-batch handling succeeds, appends exactly
`n` elements, and does not mark the batch failed. -/
theorem batchStep_good {v : JVal} {n : Nat}
    (hl : pyLen v = some n) (hn : 0 < n) :
    ∃ es, batchStep v n = .ok (es, false) ∧ es.length = n := by
  obtain ⟨es, hes⟩ : ∃ es, pyExtend v = .ok es := by
    cases v <;> simp [pyLen] at hl <;> simp [pyExtend]
  have htr : pyTruthy v = true := by
    cases v with
    | jarr xs =>
      simp [pyLen] at hl
      simp [pyTruthy, List.isEmpty_iff]
      intro hx
      rw [hx] at hl
      simp at hl
      omega
    | jstr s =>
      simp [pyLen] at hl
      simp [pyTruthy]
      intro hx
      rw [hx] at hl
      simp [string_length_data] at hl
      omega
    | jobj fs =>
      simp [pyLen] at hl
      simp [pyTruthy, List.isEmpty_iff]
      intro hx
      rw [hx] at hl
      simp at hl
      omega
    | jnull => simp [pyLen] at hl
    | jbool b => simp [pyLen] at hl
    | jnum i => simp [pyLen] at hl
  refine ⟨es, ?_, pyExtend_len hl hes⟩
  simp [batchStep, htr, hl, hes, hn.ne']

/-- A handy corollary: on a batch result of the right positive length the
per-batch handling is a plain extend. -/
theorem batchStep_jarr {xs : List JVal} {n : Nat} (hlen : xs.length = n) (hn : 0 < n) :
    batchStep (.jarr xs) n = .ok (xs, false) := by
  have hne : ¬ xs.isEmpty = true := by
    intro h
    rw [List.isEmpty_iff.mp h] at hlen
    simp at hlen
    omega
  simp [batchStep, pyTruthy, pyLen, pyExtend, hlen, hn.ne', hne]

/-! ## The batch loop invariants -/

/-- C1 core: the batch loop appends exactly one element per note of every
batch, on every path, so the accumulated result has one record per input
note. -/
theorem blGo_results_len (max_retries : Nat) (loads : String → Option JVal)
    (client : Nat → String → Except String String) (bp : Nat) :
    ∀ (fuel : Nat) (notes : List String) (bn k : Nat), notes.length ≤ fuel →
      (blGo max_retries loads client bp fuel notes bn k).results.length = notes.length := by
  intro fuel
  induction fuel with
  | zero =>
    intro notes bn k hle
    cases notes with
    | nil => rfl
    | cons a t => simp at hle
  | succ fuel ih =>
    intro notes bn k hle
    cases notes with
    | nil => rfl
    | cons a t =>
      have hrest : ((a :: t).drop (bp + 1)).length ≤ fuel := by
        rw [List.length_drop]
        simp at hle ⊢
        omega
      have hr := ih ((a :: t).drop (bp + 1)) (bn + 1)
        (k + (extract_features max_retries loads client ((a :: t).take (bp + 1)) 0 k).calls)
        hrest
      simp only [blGo]
      rcases hstep : batchStep
          (extract_features max_retries loads client ((a :: t).take (bp + 1)) 0 k).result
          ((a :: t).take (bp + 1)).length with e | p
      · simp only [hstep, List.length_append, hr]
        simp [get_empty_structures, List.length_take, List.length_drop]
        omega
      · obtain ⟨es, b⟩ := p
        have hes := batchStep_ok_len hstep
        simp only [hstep, List.length_append, hr]
        rw [hes]
        simp [List.length_take, List.length_drop]
        omega

/-- The batch slices concatenate back to the input: the partition is
contiguous and order-preserving. -/
theorem blGo_slices_join (max_retries : Nat) (loads : String → Option JVal)
    (client : Nat → String → Except String String) (bp : Nat) :
    ∀ (fuel : Nat) (notes : List String) (bn k : Nat), notes.length ≤ fuel →
      (blGo max_retries loads client bp fuel notes bn k).slices.flatten = notes := by
  intro fuel
  induction fuel with
  | zero =>
    intro notes bn k hle
    cases notes with
    | nil => rfl
    | cons a t => simp at hle
  | succ fuel ih =>
    intro notes bn k hle
    cases notes with
    | nil => rfl
    | cons a t =>
      have hrest : ((a :: t).drop (bp + 1)).length ≤ fuel := by
        rw [List.length_drop]
        simp at hle ⊢
        omega
      have hr := ih ((a :: t).drop (bp + 1)) (bn + 1)
        (k + (extract_features max_retries loads client ((a :: t).take (bp + 1)) 0 k).calls)
        hrest
      simp only [blGo, List.flatten_cons]
      rw [hr, List.take_append_drop]

/-- Every batch slice is nonempty and no longer than the batch size. -/
theorem blGo_slices_bound (max_retries : Nat) (loads : String → Option JVal)
    (client : Nat → String → Except String String) (bp : Nat) :
    ∀ (fuel : Nat) (notes : List String) (bn k : Nat), notes.length ≤ fuel →
      ∀ s ∈ (blGo max_retries loads client bp fuel notes bn k).slices,
        s ≠ [] ∧ s.length ≤ bp + 1 := by
  intro fuel
  induction fuel with
  | zero =>
    intro notes bn k hle
    cases notes with
    | nil => intro s hs; simp [blGo] at hs
    | cons a t => simp at hle
  | succ fuel ih =>
    intro notes bn k hle
    cases notes with
    | nil => intro s hs; simp [blGo] at hs
    | cons a t =>
      have hrest : ((a :: t).drop (bp + 1)).length ≤ fuel := by
        rw [List.length_drop]
        simp at hle ⊢
        omega
      intro s hs
      simp only [blGo, List.mem_cons] at hs
      rcases hs with hs | hs
      · subst hs
        refine ⟨by simp, ?_⟩
        rw [List.length_take]
        omega
      · exact ih ((a :: t).drop (bp + 1)) (bn + 1)
          (k + (extract_features max_retries loads client ((a :: t).take (bp + 1)) 0 k).calls)
          hrest s hs

/-- Arithmetic step for the ceiling division count of batches. -/
theorem ceil_div_step (L bp : Nat) (h : 1 ≤ L) :
    (L - (bp + 1) + bp) / (bp + 1) + 1 = (L + bp) / (bp + 1) := by
  have h1 : L + bp = (L - 1) + (bp + 1) := by omega
  rw [h1, Nat.add_div_right _ (by omega : 0 < bp + 1)]
  suffices hs : (L - (bp + 1) + bp) / (bp + 1) = (L - 1) / (bp + 1) by omega
  rcases le_or_lt L (bp + 1) with hle | hlt
  · rw [Nat.div_eq_of_lt (by omega), Nat.div_eq_of_lt (by omega)]
  · have h2 : L - (bp + 1) + bp = L - 1 := by omega
    rw [h2]

/-- The loop runs exactly `ceil(len(notes) / batch_size)` iterations. -/
theorem blGo_slices_count (max_retries : Nat) (loads : String → Option JVal)
    (client : Nat → String → Except String String) (bp : Nat) :
    ∀ (fuel : Nat) (notes : List String) (bn k : Nat), notes.length ≤ fuel →
      (blGo max_retries loads client bp fuel notes bn k).slices.length =
        (notes.length + bp) / (bp + 1) := by
  intro fuel
  induction fuel with
  | zero =>
    intro notes bn k hle
    cases notes with
    | nil => simp [blGo, Nat.div_eq_of_lt (by omega : bp < bp + 1)]
    | cons a t => simp at hle
  | succ fuel ih =>
    intro notes bn k hle
    cases notes with
    | nil => simp [blGo, Nat.div_eq_of_lt (by omega : bp < bp + 1)]
    | cons a t =>
      have hrest : ((a :: t).drop (bp + 1)).length ≤ fuel := by
        rw [List.length_drop]
        simp at hle ⊢
        omega
      have hr := ih ((a :: t).drop (bp + 1)) (bn + 1)
        (k + (extract_features max_retries loads client ((a :: t).take (bp + 1)) 0 k).calls)
        hrest
      simp only [blGo, List.length_cons]
      rw [hr, List.length_drop]
      have hL : 1 ≤ (a :: t).length := by simp
      exact ceil_div_step (a :: t).length bp hL

/-- The loop sleeps the rate-limit delay after every batch except the
last: one fewer sleep than there are batches (and none for no input). -/
theorem blGo_rate (max_retries : Nat) (loads : String → Option JVal)
    (client : Nat → String → Except String String) (bp : Nat) :
    ∀ (fuel : Nat) (notes : List String) (bn k : Nat), notes.length ≤ fuel →
      (blGo max_retries loads client bp fuel notes bn k).rateSleeps + 1 =
        (blGo max_retries loads client bp fuel notes bn k).slices.length +
          (if notes.isEmpty then 1 else 0) := by
  intro fuel
  induction fuel with
  | zero =>
    intro notes bn k hle
    cases notes with
    | nil => rfl
    | cons a t => simp at hle
  | succ fuel ih =>
    intro notes bn k hle
    cases notes with
    | nil => rfl
    | cons a t =>
      have hlen : ((a :: t).take (bp + 1)).length = min (bp + 1) (a :: t).length :=
        List.length_take _ _
      have hpos : 0 < ((a :: t).take (bp + 1)).length := by
        rw [hlen]; simp
      obtain ⟨es, hstep, -⟩ := batchStep_good
        (extract_features_result_len max_retries loads client ((a :: t).take (bp + 1)) 0 k)
        hpos
      have hrest : ((a :: t).drop (bp + 1)).length ≤ fuel := by
        rw [List.length_drop]
        simp at hle ⊢
        omega
      have hr := ih ((a :: t).drop (bp + 1)) (bn + 1)
        (k + (extract_features max_retries loads client ((a :: t).take (bp + 1)) 0 k).calls)
        hrest
      simp only [blGo, hstep, List.length_cons]
      rcases hdrop : (a :: t).drop (bp + 1) with _ | ⟨b, t2⟩
      · rw [hdrop] at hr
        simp [blGo] at hr ⊢
      · rw [hdrop] at hr
        simp [blGo] at hr ⊢
        omega

/-- The orchestrator's `failed_batches` ledger always ends up empty:
`extract_features` normalises every batch to the right record count before
the orchestrator's checks run, so the mismatch/empty/exception paths that
would record a failure are unreachable. -/
theorem blGo_failed_nil (max_retries : Nat) (loads : String → Option JVal)
    (client : Nat → String → Except String String) (bp : Nat) :
    ∀ (fuel : Nat) (notes : List String) (bn k : Nat), notes.length ≤ fuel →
      (blGo max_retries loads client bp fuel notes bn k).failed = [] := by
  intro fuel
  induction fuel with
  | zero =>
    intro notes bn k hle
    cases notes with
    | nil => rfl
    | cons a t => simp at hle
  | succ fuel ih =>
    intro notes bn k hle
    cases notes with
    | nil => rfl
    | cons a t =>
      have hpos : 0 < ((a :: t).take (bp + 1)).length := by
        rw [List.length_take]; simp
      obtain ⟨es, hstep, -⟩ := batchStep_good
        (extract_features_result_len max_retries loads client ((a :: t).take (bp + 1)) 0 k)
        hpos
      have hrest : ((a :: t).drop (bp + 1)).length ≤ fuel := by
        rw [List.length_drop]
        simp at hle ⊢
        omega
      have hr := ih ((a :: t).drop (bp + 1)) (bn + 1)
        (k + (extract_features max_retries loads client ((a :: t).take (bp + 1)) 0 k).calls)
        hrest
      simp only [blGo, hstep]
      simpa using hr

/-- With a completion client that raises on every call, every retry fails
and `extract_features` returns the canonical-empty fallback. -/
theorem efGo_fail_result (loads : String → Option JVal) (emsg : Nat → String)
    (a : String) (t : List String) :
    ∀ r rc k : Nat,
      (efGo loads (fun i _ => .error (emsg i)) (a :: t) r rc k).result =
        .jarr (get_empty_structures (a :: t).length) := by
  intro r
  induction r with
  | zero => intro rc k; rfl
  | succ r ih =>
    intro rc k
    simp only [efGo, tryBody]
    exact ih (rc + 1) (k + 1)

/-- With an always-failing client, the batch loop returns one canonical
empty record per note. -/
theorem blGo_fail_results (max_retries : Nat) (loads : String → Option JVal)
    (emsg : Nat → String) (bp : Nat) :
    ∀ (fuel : Nat) (notes : List String) (bn k : Nat), notes.length ≤ fuel →
      (blGo max_retries loads (fun i _ => .error (emsg i)) bp fuel notes bn k).results =
        get_empty_structures notes.length := by
  intro fuel
  induction fuel with
  | zero =>
    intro notes bn k hle
    cases notes with
    | nil => rfl
    | cons a t => simp at hle
  | succ fuel ih =>
    intro notes bn k hle
    cases notes with
    | nil => rfl
    | cons a t =>
      have hbatch : (extract_features max_retries loads (fun i _ => .error (emsg i))
          ((a :: t).take (bp + 1)) 0 k).result =
          .jarr (get_empty_structures ((a :: t).take (bp + 1)).length) := by
        rw [List.take_succ_cons]
        exact efGo_fail_result loads emsg a (t.take bp) _ 0 k
      have hpos : 0 < ((a :: t).take (bp + 1)).length := by
        rw [List.length_take]; simp
      have hstep : batchStep
          (extract_features max_retries loads (fun i _ => .error (emsg i))
            ((a :: t).take (bp + 1)) 0 k).result
          ((a :: t).take (bp + 1)).length =
          .ok (get_empty_structures ((a :: t).take (bp + 1)).length, false) := by
        rw [hbatch]
        exact batchStep_jarr (by simp [get_empty_structures]) hpos
      have hrest : ((a :: t).drop (bp + 1)).length ≤ fuel := by
        rw [List.length_drop]
        simp at hle ⊢
        omega
      have hr := ih ((a :: t).drop (bp + 1)) (bn + 1)
        (k + (extract_features max_retries loads (fun i _ => .error (emsg i))
          ((a :: t).take (bp + 1)) 0 k).calls)
        hrest
      simp only [blGo, hstep]
      rw [hr]
      simp only [get_empty_structures, List.length_take, List.length_drop]
      rw [← List.replicate_add]
      congr 1
      simp
      omega

/-! ## Claim theorems for the orchestrator -/

/-- C1: for every note list and every `batch_size >= 1`, `extract_batch`
returns a result list with exactly one record per input note, whatever the
parser and client do — every code path of a batch appends exactly
`len(batch)` records in batch order. -/
theorem extract_batch_length_invariant (max_retries : Nat)
    (loads : String → Option JVal) (client : Nat → String → Except String String)
    (notes : List String) (batch_size : Nat) (hB : 1 ≤ batch_size) :
    ∃ r : BRes, extract_batch max_retries loads client notes batch_size = .ok r
      ∧ r.results.length = notes.length := by
  obtain ⟨bp, rfl⟩ : ∃ bp, batch_size = bp + 1 := ⟨batch_size - 1, by omega⟩
  exact ⟨blGo max_retries loads client bp notes.length notes 1 0,
    by simp [extract_batch],
    blGo_results_len max_retries loads client bp notes.length notes 1 0 (le_refl _)⟩

/-- Witness for C1 with three notes and batch size 2 (the model answers
one record per batch, so the mismatch-correction path is also exercised). -/
theorem extract_batch_length_invariant_witness :
    1 ≤ 2 ∧ ∃ r : BRes,
      extract_batch 3 loadsFix (okClient "[\x7b\x7d]") ["a", "b", "c"] 2 = .ok r
        ∧ r.results.length = 3 :=
  ⟨by decide, extract_batch_length_invariant 3 loadsFix (okClient "[\x7b\x7d]")
    ["a", "b", "c"] 2 (by decide)⟩

/-- C9: the orchestrator partitions the notes into `ceil(total/B)`
contiguous order-preserving nonempty batches of size at most `B`,
processes them sequentially, and performs exactly one fewer rate-limit
sleep than there are batches (none when the input is empty). -/
theorem extract_batch_partition_and_rate_limit (max_retries : Nat)
    (loads : String → Option JVal) (client : Nat → String → Except String String)
    (notes : List String) (batch_size : Nat) (hB : 1 ≤ batch_size) :
    ∃ r : BRes, extract_batch max_retries loads client notes batch_size = .ok r
      ∧ r.slices.flatten = notes
      ∧ r.slices.length = (notes.length + batch_size - 1) / batch_size
      ∧ (∀ s ∈ r.slices, s ≠ [] ∧ s.length ≤ batch_size)
      ∧ r.rateSleeps + 1 = r.slices.length + (if notes.isEmpty then 1 else 0) := by
  obtain ⟨bp, rfl⟩ : ∃ bp, batch_size = bp + 1 := ⟨batch_size - 1, by omega⟩
  refine ⟨blGo max_retries loads client bp notes.length notes 1 0,
    by simp [extract_batch], ?_, ?_, ?_, ?_⟩
  · exact blGo_slices_join max_retries loads client bp notes.length notes 1 0 (le_refl _)
  · rw [blGo_slices_count max_retries loads client bp notes.length notes 1 0 (le_refl _)]
    have h2 : notes.length + (bp + 1) - 1 = notes.length + bp := by omega
    rw [h2]
  · exact blGo_slices_bound max_retries loads client bp notes.length notes 1 0 (le_refl _)
  · exact blGo_rate max_retries loads client bp notes.length notes 1 0 (le_refl _)

/-- Witness for C9: two notes with `batch_size = 1` — and concretely the
loop makes exactly 2 completion calls with exactly 1 inter-batch sleep. -/
theorem extract_batch_partition_and_rate_limit_witness :
    (1 ≤ 1 ∧ ∃ r : BRes,
      extract_batch 3 loadsFix (okClient "[\x7b\x7d]") ["a", "b"] 1 = .ok r
        ∧ r.slices.flatten = ["a", "b"]
        ∧ r.slices.length = (2 + 1 - 1) / 1
        ∧ (∀ s ∈ r.slices, s ≠ [] ∧ s.length ≤ 1)
        ∧ r.rateSleeps + 1 = r.slices.length + (if (["a", "b"] : List String).isEmpty then 1 else 0))
    ∧ (blGo 3 loadsFix (okClient "[\x7b\x7d]") 0 2 ["a", "b"] 1 0).calls = 2
    ∧ (blGo 3 loadsFix (okClient "[\x7b\x7d]") 0 2 ["a", "b"] 1 0).rateSleeps = 1 :=
  ⟨⟨by decide, extract_batch_partition_and_rate_limit 3 loadsFix (okClient "[\x7b\x7d]")
      ["a", "b"] 1 (by decide)⟩, rfl, rfl⟩

/-- C5 (amended): with `max_retries = 3` and a completion client that
fails on every call, `extract_features` makes exactly 3 attempts with
backoff sleeps of 1s then 2s and returns one canonical empty record per
note, and `extract_batch` returns those records — but the batch is NOT
recorded in `failed_batches`, because the fallback already has the
expected count and passes the orchestrator's checks. -/
theorem exhaustion_three_attempts_empty_records (loads : String → Option JVal)
    (emsg : Nat → String) (notes : List String) (hn : notes ≠ []) (k : Nat)
    (batch_size : Nat) (hB : 1 ≤ batch_size) :
    extract_features 3 loads (fun i _ => .error (emsg i)) notes 0 k =
      ⟨.jarr (get_empty_structures notes.length), 3, [1, 2]⟩
    ∧ ∃ r : BRes,
        extract_batch 3 loads (fun i _ => .error (emsg i)) notes batch_size = .ok r
          ∧ r.results = get_empty_structures notes.length
          ∧ r.failed = [] := by
  constructor
  · cases notes with
    | nil => exact absurd rfl hn
    | cons a t => rfl
  · obtain ⟨bp, rfl⟩ : ∃ bp, batch_size = bp + 1 := ⟨batch_size - 1, by omega⟩
    exact ⟨blGo 3 loads (fun i _ => .error (emsg i)) bp notes.length notes 1 0,
      by simp [extract_batch],
      blGo_fail_results 3 loads emsg bp notes.length notes 1 0 (le_refl _),
      blGo_failed_nil 3 loads (fun i _ => .error (emsg i)) bp notes.length notes 1 0
        (le_refl _)⟩

/-- Witness for C5 (amended) on a 3-note batch. -/
theorem exhaustion_three_attempts_empty_records_witness :
    (["a", "b", "c"] : List String) ≠ [] ∧ 1 ≤ 3 ∧
    (extract_features 3 loadsFix failClient ["a", "b", "c"] 0 0 =
      ⟨.jarr (get_empty_structures 3), 3, [1, 2]⟩
    ∧ ∃ r : BRes,
        extract_batch 3 loadsFix failClient ["a", "b", "c"] 3 = .ok r
          ∧ r.results = get_empty_structures 3
          ∧ r.failed = []) :=
  ⟨by decide, by decide,
    exhaustion_three_attempts_empty_records loadsFix
      (fun _ => "ConnectionError: completion call failed") ["a", "b", "c"]
      (by decide) 0 3 (by decide)⟩

/-- C5 counterexample: at the concrete exhaustion scenario (always-failing
client, `max_retries = 3`, a 3-note batch) `failed_batches` stays empty —
the degraded batch is not recorded as failed, contrary to the claim. -/
theorem exhausted_batch_not_recorded_failed :
    extract_batch 3 loadsFix failClient ["a", "b", "c"] 3 =
      .ok ⟨get_empty_structures 3, 3, 0, [["a", "b", "c"]], []⟩
    ∧ ([] : List Nat) ≠ [1] :=
  ⟨rfl, by decide⟩

/-- Backoff sleeps of the retry loop on an empty notes list: every attempt
raises the validation error before calling the client. -/
theorem efGo_nil_notes (loads : String → Option JVal)
    (client : Nat → String → Except String String) :
    ∀ r rc k : Nat, efGo loads client [] r rc k =
      ⟨.jarr [], 0, (List.range r).map fun i => 2 ^ (rc + i)⟩ := by
  intro r
  induction r with
  | zero => intro rc k; rfl
  | succ r ih =>
    intro rc k
    have hstep : efGo loads client [] (r + 1) rc k =
        ⟨(efGo loads client [] r (rc + 1) (k + 0)).result,
          0 + (efGo loads client [] r (rc + 1) (k + 0)).calls,
          2 ^ rc :: (efGo loads client [] r (rc + 1) (k + 0)).sleeps⟩ := rfl
    rw [hstep, ih (rc + 1) (k + 0)]
    simp only [Nat.zero_add]
    refine congrArg (FRes.mk (JVal.jarr []) 0) ?_
    rw [List.range_succ_eq_map, List.map_cons, List.map_map]
    refine congrArg₂ List.cons (by simp) ?_
    apply List.map_congr_left
    intro i _
    show (2 : Nat) ^ (rc + 1 + i) = 2 ^ (rc + (i + 1))
    congr 1
    omega

/-- C10: calling `extract_features` on an empty notes list raises nothing
to the caller — the internal validation error is caught, every retry (and
its backoff sleep of `2^n` seconds) is consumed without any client call,
and the empty fallback list is returned. -/
theorem empty_notes_validation_caught (max_retries : Nat)
    (loads : String → Option JVal) (client : Nat → String → Except String String)
    (k : Nat) :
    extract_features max_retries loads client [] 0 k =
      ⟨.jarr [], 0, (List.range (max_retries - 1)).map fun i => 2 ^ i⟩ := by
  unfold extract_features
  rw [efGo_nil_notes]
  refine congrArg (FRes.mk _ _) ?_
  apply List.map_congr_left
  intro i _
  congr 1
  omega
